import Mathlib

/-!
Shallow embedding of the two Quantopian algorithms
(revenue-roic-fcf-momentum.py, the trend-following variant, and
revenue-roic-fcf-momentum-no-trend.py, the no-trend variant).

Floating point numbers are modelled as exact rationals.  Missing factor
data (NaN) is modelled as Option, with none propagating through sums
and excluded from ranks and top-N selections, matching the pipeline
semantics of Factor.rank / Factor.top (assets with missing input, or
outside the mask, receive a NaN rank and never pass a top filter).
Ranks use the ordinal method (the default of Factor.rank): ties are
broken by position order.
-/

/-- A tradable security, identified by a numeric id. -/
abbrev Security := ℕ

/-- Point-in-time data of one security in the universe snapshot: the four
latest Morningstar fundamentals (possibly missing) and the trailing
window of closing prices, most recent first. -/
structure SecData where
  sid : Security
  cash_return : Option ℚ
  fcf_yield : Option ℚ
  roic : Option ℚ
  revenue_growth : Option ℚ
  closes : List ℚ
deriving Repr, DecidableEq

/-- context.TARGET_SECURITIES (both variants). -/
def TARGET_SECURITIES : ℕ := 5

/-- context.TOP_ROE_QTY in the trend-following variant. -/
def TOP_ROE_QTY : ℕ := 50

/-- context.TOP_ROE_QTY in the no-trend variant. -/
def TOP_ROE_QTY_NT : ℕ := 100

/-- context.TF_SLOW_LOOKBACK (trend-following variant). -/
def TF_SLOW_LOOKBACK : ℕ := 100

/-- context.TF_FAST_LOOKBACK (trend-following variant). -/
def TF_FAST_LOOKBACK : ℕ := 10

/-- context.MOMENTUM_LOOKBACK_DAYS (both variants). -/
def MOMENTUM_LOOKBACK_DAYS : ℕ := 140

/-- context.BONDS = [symbol(IEF), symbol(TLT)]: two fixed bond ETFs. -/
def BONDS : List Security := [1001, 1002]

/-- Addition of factor values with NaN propagation: a sum involving a
missing value is missing. -/
def oadd (a b : Option ℚ) : Option ℚ :=
  match a, b with
  | some x, some y => some (x + y)
  | _, _ => none

/-- Read a per-security raw value as a factor over positions of the
universe snapshot list. -/
def fvalOf (u : List SecData) (g : SecData → Option ℚ) (i : ℕ) : Option ℚ :=
  (u[i]?).bind g

/-- The Q500US universe mask: every position of the snapshot list. -/
def univMask (u : List SecData) (i : ℕ) : Bool :=
  decide (i < u.length)

/-- j comes strictly before i in the ascending ordinal ranking of f:
its value is smaller, or equal with j at an earlier position.  Missing
values never precede and are never preceded. -/
def precAsc (f : ℕ → Option ℚ) (j i : ℕ) : Bool :=
  match f j, f i with
  | some w, some v => decide (w < v) || (decide (w = v) && decide (j < i))
  | _, _ => false

/-- j comes strictly before i in the descending ordinal ranking of f:
its value is larger, or equal with j at an earlier position. -/
def precDesc (f : ℕ → Option ℚ) (j i : ℕ) : Bool :=
  match f j, f i with
  | some w, some v => decide (v < w) || (decide (w = v) && decide (j < i))
  | _, _ => false

/-- Number of masked positions that come strictly before i under the
precedence relation prec. -/
def rankCount (n : ℕ) (mask : ℕ → Bool) (prec : ℕ → ℕ → Bool) (i : ℕ) : ℕ :=
  ((Finset.range n).filter (fun j => (mask j && prec j i) = true)).card

/-- Factor.rank(mask=...): ascending ordinal rank of position i among
masked positions with a present value; missing (NaN) otherwise. -/
def rankWithin (n : ℕ) (mask : ℕ → Bool) (f : ℕ → Option ℚ) (i : ℕ) : Option ℚ :=
  if mask i && (f i).isSome then
    some ((rankCount n mask (precAsc f) i : ℚ) + 1)
  else none

/-- Factor.top(N, mask=...): true for positions whose descending ordinal
rank within the mask is at most N; masked-out and missing values never
pass. -/
def topWithin (n N : ℕ) (mask : ℕ → Bool) (f : ℕ → Option ℚ) (i : ℕ) : Bool :=
  (mask i && (f i).isSome) && decide (rankCount n mask (precDesc f) i + 1 ≤ N)

/-- ms.cash_return.latest as a factor over snapshot positions. -/
def cash_return_latest (u : List SecData) (i : ℕ) : Option ℚ :=
  fvalOf u SecData.cash_return i

/-- ms.fcf_yield.latest as a factor over snapshot positions. -/
def fcf_yield_latest (u : List SecData) (i : ℕ) : Option ℚ :=
  fvalOf u SecData.fcf_yield i

/-- ms.roic.latest as a factor over snapshot positions. -/
def roic_latest (u : List SecData) (i : ℕ) : Option ℚ :=
  fvalOf u SecData.roic i

/-- ms.revenue_growth.latest as a factor over snapshot positions. -/
def rev_growth_latest (u : List SecData) (i : ℕ) : Option ℚ :=
  fvalOf u SecData.revenue_growth i

/-- cash_return = cash_return_latest.rank(mask=universe). -/
def cash_return (u : List SecData) (i : ℕ) : Option ℚ :=
  rankWithin u.length (univMask u) (cash_return_latest u) i

/-- fcf_yield = fcf_yield_latest.rank(mask=universe). -/
def fcf_yield (u : List SecData) (i : ℕ) : Option ℚ :=
  rankWithin u.length (univMask u) (fcf_yield_latest u) i

/-- roic = roic_latest.rank(mask=universe). -/
def roic (u : List SecData) (i : ℕ) : Option ℚ :=
  rankWithin u.length (univMask u) (roic_latest u) i

/-- rev_growth = rev_growth_latest.rank(mask=universe). -/
def rev_growth (u : List SecData) (i : ℕ) : Option ℚ :=
  rankWithin u.length (univMask u) (rev_growth_latest u) i

/-- value = (cash_return + fcf_yield).rank(mask=universe). -/
def value (u : List SecData) (i : ℕ) : Option ℚ :=
  rankWithin u.length (univMask u) (fun j => oadd (cash_return u j) (fcf_yield u j)) i

/-- quality = value + roic + rev_growth. -/
def quality (u : List SecData) (i : ℕ) : Option ℚ :=
  oadd (oadd (value u i) (roic u i)) (rev_growth u i)

/-- Returns(window_length = MOMENTUM_LOOKBACK_DAYS): trailing total
return over the lookback window, (latest close minus the close
MOMENTUM_LOOKBACK_DAYS - 1 positions back) divided by that older close;
missing when the price history is too short. -/
def momentumOf (s : SecData) : Option ℚ :=
  match s.closes.head?, s.closes[MOMENTUM_LOOKBACK_DAYS - 1]? with
  | some pLast, some pFirst => some ((pLast - pFirst) / pFirst)
  | _, _ => none

/-- The momentum factor over snapshot positions. -/
def momentumF (u : List SecData) (i : ℕ) : Option ℚ :=
  fvalOf u momentumOf i

/-- All four raw fundamental factors are present for position i. -/
def completeB (u : List SecData) (i : ℕ) : Bool :=
  (cash_return_latest u i).isSome && (fcf_yield_latest u i).isSome &&
    (roic_latest u i).isSome && (rev_growth_latest u i).isSome

/-- top_quality = quality.top(K, mask=universe) and cash_return_latest.notnull()
and fcf_yield_latest.notnull() and roic_latest.notnull() and
rev_growth_latest.notnull().  K is TOP_ROE_QTY resp. TOP_ROE_QTY_NT. -/
def top_quality (K : ℕ) (u : List SecData) (i : ℕ) : Bool :=
  topWithin u.length K (univMask u) (quality u) i &&
    (cash_return_latest u i).isSome && (fcf_yield_latest u i).isSome &&
    (roic_latest u i).isSome && (rev_growth_latest u i).isSome

/-- top_quality_momentum = momentum.top(TARGET_SECURITIES, mask=top_quality). -/
def top_quality_momentum (K : ℕ) (u : List SecData) (i : ℕ) : Bool :=
  topWithin u.length TARGET_SECURITIES (top_quality K u) (momentumF u) i

/-- SimpleMovingAverage of the closing-price series (most recent first)
over a window of w days. -/
def sma (closes : List ℚ) (w : ℕ) : ℚ :=
  (closes.take w).sum / (w : ℚ)

/-- spy_ma_fast_slice = SMA(close, TF_FAST_LOOKBACK)[SPY]. -/
def spy_ma_fast_slice (spy : List ℚ) : ℚ :=
  sma spy TF_FAST_LOOKBACK

/-- spy_ma_slow_slice = SMA(close, TF_SLOW_LOOKBACK)[SPY]. -/
def spy_ma_slow_slice (spy : List ℚ) : ℚ :=
  sma spy TF_SLOW_LOOKBACK

/-- spy_ma_fast = SMA([spy_ma_fast_slice], window_length=1). -/
def spy_ma_fast (spy : List ℚ) : ℚ :=
  sma [spy_ma_fast_slice spy] 1

/-- spy_ma_slow = SMA([spy_ma_slow_slice], window_length=1). -/
def spy_ma_slow (spy : List ℚ) : ℚ :=
  sma [spy_ma_slow_slice spy] 1

/-- trend_up = spy_ma_fast > spy_ma_slow. -/
def trend_up (spy : List ℚ) : Bool :=
  decide (spy_ma_fast spy > spy_ma_slow spy)

/-- The sid stored at position i of the snapshot. -/
def sidAt (u : List SecData) (i : ℕ) : Security :=
  ((u[i]?).map SecData.sid).getD 0

/-- One row of the trend-following pipeline output frame: the index
entry (security) and the two requested columns. -/
structure PipeRow where
  sid : Security
  trend_up_col : Bool
  top_quality_momentum_col : Bool
deriving Repr, DecidableEq

/-- Running the trend-following pipeline: rows of the output frame, one
per position passing the screen (top_quality_momentum), with columns
trend_up and top_quality_momentum. -/
def pipeline_output (u : List SecData) (spy : List ℚ) : List PipeRow :=
  ((List.range u.length).filter (fun i => top_quality_momentum TOP_ROE_QTY u i)).map
    (fun i => { sid := sidAt u i, trend_up_col := trend_up spy,
                top_quality_momentum_col := top_quality_momentum TOP_ROE_QTY u i })

/-- The mutable weight state held on the trend-following context. -/
structure Context where
  stock_weights : List (Security × ℚ)
  bond_weights : List (Security × ℚ)
deriving Repr, DecidableEq

/-- The pandas query rule of the trend-following variant, with the pandas
parser rewriting of the bitwise connectives to boolean ones:
top_quality_momentum and (trend_up or (not trend_up and index in
current_holdings)). -/
def query_rule (holdings : List Security) (r : PipeRow) : Bool :=
  r.top_quality_momentum_col &&
    (r.trend_up_col || (!r.trend_up_col && holdings.contains r.sid))

/-- select_stocks_and_set_weights of the trend-following variant: filter
the output frame by the query rule, give each kept stock weight
1.0 / TARGET_SECURITIES, and give each bond max(1 - sum, 0) / len(BONDS). -/
def select_stocks_and_set_weights (df : List PipeRow) (holdings : List Security)
    (ctx : Context) : Context :=
  let stocks_to_hold := (df.filter (query_rule holdings)).map PipeRow.sid
  let stock_weight : ℚ := 1 / (TARGET_SECURITIES : ℚ)
  let stock_weights := stocks_to_hold.map (fun s => (s, stock_weight))
  let bond_weight : ℚ :=
    max (1 - (stock_weights.map Prod.snd).sum) 0 / (BONDS.length : ℚ)
  { stock_weights := stock_weights,
    bond_weights := BONDS.map (fun b => (b, bond_weight)) }

/-- The single series built by trade from the stock and bond weights
(pd.concat): the WeightVector handed to the executor. -/
def total_weights (ctx : Context) : List (Security × ℚ) :=
  ctx.stock_weights ++ ctx.bond_weights

/-- One row of the no-trend pipeline output frame. -/
structure PipeRowNT where
  sid : Security
  top_quality_momentum_col : Bool
deriving Repr, DecidableEq

/-- Running the no-trend pipeline (TOP_ROE_QTY_NT quality slots, no
trend column). -/
def pipeline_output_nt (u : List SecData) : List PipeRowNT :=
  ((List.range u.length).filter (fun i => top_quality_momentum TOP_ROE_QTY_NT u i)).map
    (fun i => { sid := sidAt u i,
                top_quality_momentum_col := top_quality_momentum TOP_ROE_QTY_NT u i })

/-- The mutable weight state held on the no-trend context. -/
structure ContextNT where
  stock_weights : List (Security × ℚ)
deriving Repr, DecidableEq

/-- select_stocks_and_set_weights of the no-trend variant: the query rule
is just top_quality_momentum; each kept stock gets 1.0 / TARGET_SECURITIES. -/
def select_stocks_and_set_weights_nt (df : List PipeRowNT) (ctx : ContextNT) : ContextNT :=
  let stocks_to_hold := (df.filter (fun r => r.top_quality_momentum_col)).map PipeRowNT.sid
  let stock_weight : ℚ := 1 / (TARGET_SECURITIES : ℚ)
  { stock_weights := stocks_to_hold.map (fun s => (s, stock_weight)) }

/-- A fully populated security used in concrete evaluations: momentum
history of MOMENTUM_LOOKBACK_DAYS closes. -/
def secA : SecData :=
  { sid := 7, cash_return := some 1, fcf_yield := some 1, roic := some 1,
    revenue_growth := some 1, closes := 2 :: List.replicate 139 1 }

/-- A second fully populated security with larger factor values. -/
def secC : SecData :=
  { sid := 8, cash_return := some 2, fcf_yield := some 3, roic := some 2,
    revenue_growth := some 2, closes := 3 :: List.replicate 139 1 }

/-- A security with a missing roic factor. -/
def secB : SecData :=
  { sid := 9, cash_return := some 4, fcf_yield := some 4, roic := none,
    revenue_growth := some 4, closes := [] }

/-- A one-security snapshot. -/
def u0 : List SecData := [secA]

/-- A snapshot with one complete and one incomplete security. -/
def u1 : List SecData := [secA, secB]

/-- A snapshot with two complete securities. -/
def u2 : List SecData := [secA, secC]

/-- Number of securities in the Quality Ranker output (the top_quality
filter) for a snapshot. -/
def qualitySetSize (K : ℕ) (u : List SecData) : ℕ :=
  ((Finset.range u.length).filter (fun i => top_quality K u i = true)).card

/-- Number of securities in the Momentum Selector output (the
top_quality_momentum filter) for a snapshot. -/
def momentumSetSize (K : ℕ) (u : List SecData) : ℕ :=
  ((Finset.range u.length).filter (fun i => top_quality_momentum K u i = true)).card

/-- QualityScore exactly as the spec words it: rank the cash-return and
fcf-yield factors within the snapshot, sum those two ranks and re-rank
the sum within the snapshot, then add the independently ranked roic and
revenue-growth ranks. -/
def qualityScore_spec (u : List SecData) (i : ℕ) : Option ℚ :=
  oadd (oadd (rankWithin u.length (univMask u)
        (fun j => oadd (rankWithin u.length (univMask u) (cash_return_latest u) j)
          (rankWithin u.length (univMask u) (fcf_yield_latest u) j)) i)
      (rankWithin u.length (univMask u) (roic_latest u) i))
    (rankWithin u.length (univMask u) (rev_growth_latest u) i)

/-- The Momentum Selector output in the spec words: a security of the
quality gate with a present MomentumScore such that fewer than
TARGET_SECURITIES quality-gate securities come before it in descending
momentum order. -/
def momentumTop_spec (u : List SecData) (K i : ℕ) : Prop :=
  top_quality K u i = true ∧ (momentumF u i).isSome = true ∧
    ((Finset.range u.length).filter
      (fun j => (top_quality K u j && precDesc (momentumF u) j i) = true)).card <
      TARGET_SECURITIES

/-! ### Properties of the ordinal precedence relations -/

theorem precAsc_irrefl (f : ℕ → Option ℚ) (i : ℕ) : precAsc f i i = false := by
  unfold precAsc
  cases hfi : f i with
  | none => rfl
  | some v => simp

theorem precDesc_irrefl (f : ℕ → Option ℚ) (i : ℕ) : precDesc f i i = false := by
  unfold precDesc
  cases hfi : f i with
  | none => rfl
  | some v => simp

theorem precAsc_trans (f : ℕ → Option ℚ) {k j i : ℕ} (h1 : precAsc f k j = true)
    (h2 : precAsc f j i = true) : precAsc f k i = true := by
  unfold precAsc at *
  cases hfk : f k <;> cases hfj : f j <;> cases hfi : f i <;> simp_all
  rcases h1 with h1 | ⟨h1, hkj⟩ <;> rcases h2 with h2 | ⟨h2, hji⟩
  · exact Or.inl (lt_trans h1 h2)
  · exact Or.inl (h2 ▸ h1)
  · exact Or.inl (h1 ▸ h2)
  · exact Or.inr ⟨h1.trans h2, lt_trans hkj hji⟩

theorem precDesc_trans (f : ℕ → Option ℚ) {k j i : ℕ} (h1 : precDesc f k j = true)
    (h2 : precDesc f j i = true) : precDesc f k i = true := by
  unfold precDesc at *
  cases hfk : f k <;> cases hfj : f j <;> cases hfi : f i <;> simp_all
  rcases h1 with h1 | ⟨h1, hkj⟩ <;> rcases h2 with h2 | ⟨h2, hji⟩
  · exact Or.inl (lt_trans h2 h1)
  · exact Or.inl (h2 ▸ h1)
  · exact Or.inl (h1.symm ▸ h2)
  · exact Or.inr ⟨h1.trans h2, lt_trans hkj hji⟩

theorem precAsc_connected (f : ℕ → Option ℚ) {i j : ℕ} (hne : i ≠ j)
    (hi : (f i).isSome = true) (hj : (f j).isSome = true) :
    precAsc f i j = true ∨ precAsc f j i = true := by
  unfold precAsc
  cases hfi : f i with
  | none => rw [hfi] at hi; simp at hi
  | some v =>
    cases hfj : f j with
    | none => rw [hfj] at hj; simp at hj
    | some w =>
      rcases lt_trichotomy v w with h | h | h
      · exact Or.inl (by simp [h])
      · rcases Nat.lt_or_ge i j with hij | hij
        · exact Or.inl (by simp [h, hij])
        · have hij : j < i := lt_of_le_of_ne hij (Ne.symm hne)
          exact Or.inr (by simp [h.symm, hij])
      · exact Or.inr (by simp [h])

theorem precDesc_connected (f : ℕ → Option ℚ) {i j : ℕ} (hne : i ≠ j)
    (hi : (f i).isSome = true) (hj : (f j).isSome = true) :
    precDesc f i j = true ∨ precDesc f j i = true := by
  unfold precDesc
  cases hfi : f i with
  | none => rw [hfi] at hi; simp at hi
  | some v =>
    cases hfj : f j with
    | none => rw [hfj] at hj; simp at hj
    | some w =>
      rcases lt_trichotomy v w with h | h | h
      · exact Or.inr (by simp [h])
      · rcases Nat.lt_or_ge i j with hij | hij
        · exact Or.inl (by simp [h, hij])
        · have hij : j < i := lt_of_le_of_ne hij (Ne.symm hne)
          exact Or.inr (by simp [h.symm, hij])
      · exact Or.inl (by simp [h])

theorem band_split {a b : Bool} (h : (a && b) = true) : a = true ∧ b = true :=
  ⟨Bool.and_elim_left h, Bool.and_elim_right h⟩

/-! ### Counting lemmas for ordinal ranks -/

theorem rankCount_lt_of_prec (n : ℕ) (mask : ℕ → Bool) (prec : ℕ → ℕ → Bool)
    (htrans : ∀ {a b c : ℕ}, prec a b = true → prec b c = true → prec a c = true)
    (hirr : ∀ a, prec a a = false)
    {j i : ℕ} (hj : j < n) (hmj : mask j = true) (hji : prec j i = true) :
    rankCount n mask prec j < rankCount n mask prec i := by
  unfold rankCount
  have hsub : insert j ((Finset.range n).filter (fun k => (mask k && prec k j) = true)) ⊆
      (Finset.range n).filter (fun k => (mask k && prec k i) = true) := by
    intro k hk
    rcases Finset.mem_insert.mp hk with rfl | hk
    · exact Finset.mem_filter.mpr ⟨Finset.mem_range.mpr hj, by simp [hmj, hji]⟩
    · rcases Finset.mem_filter.mp hk with ⟨hkr, hkp⟩
      rcases band_split hkp with ⟨hmk, hpk⟩
      exact Finset.mem_filter.mpr ⟨hkr, by simp [hmk, htrans hpk hji]⟩
  have hnot : j ∉ (Finset.range n).filter (fun k => (mask k && prec k j) = true) := by
    intro h
    have hcontra := (Finset.mem_filter.mp h).2
    simp [hirr j] at hcontra
  have hcard := Finset.card_le_card hsub
  rw [Finset.card_insert_of_not_mem hnot] at hcard
  omega

theorem rankCount_injOn (n : ℕ) (mask : ℕ → Bool) (prec : ℕ → ℕ → Bool)
    (htrans : ∀ {a b c : ℕ}, prec a b = true → prec b c = true → prec a c = true)
    (hirr : ∀ a, prec a a = false) (S : Finset ℕ)
    (hSn : ∀ i ∈ S, i < n) (hSm : ∀ i ∈ S, mask i = true)
    (hconn : ∀ i ∈ S, ∀ j ∈ S, i ≠ j → prec i j = true ∨ prec j i = true) :
    Set.InjOn (rankCount n mask prec) ↑S := by
  intro i hi j hj hEq
  by_contra hne
  have hi' : i ∈ S := hi
  have hj' : j ∈ S := hj
  rcases hconn i hi' j hj' hne with h | h
  · have hlt := rankCount_lt_of_prec n mask prec htrans hirr (hSn i hi') (hSm i hi') h
    omega
  · have hlt := rankCount_lt_of_prec n mask prec htrans hirr (hSn j hj') (hSm j hj') h
    omega

theorem topWithin_mask {n N : ℕ} {mask : ℕ → Bool} {f : ℕ → Option ℚ} {i : ℕ}
    (h : topWithin n N mask f i = true) :
    mask i = true ∧ (f i).isSome = true ∧ rankCount n mask (precDesc f) i + 1 ≤ N := by
  unfold topWithin at h
  rcases band_split h with ⟨h1, h2⟩
  rcases band_split h1 with ⟨hm, hs⟩
  exact ⟨hm, hs, of_decide_eq_true h2⟩

theorem topWithin_card_le (n N : ℕ) (mask : ℕ → Bool) (f : ℕ → Option ℚ) :
    ((Finset.range n).filter (fun i => topWithin n N mask f i = true)).card ≤ N := by
  have hcard : ((Finset.range n).filter (fun i => topWithin n N mask f i = true)).card ≤
      (Finset.range N).card := by
    refine Finset.card_le_card_of_injOn (rankCount n mask (precDesc f)) ?_ ?_
    · intro a ha
      rcases Finset.mem_filter.mp ha with ⟨-, hatop⟩
      rcases topWithin_mask hatop with ⟨-, -, hle⟩
      exact Finset.mem_range.mpr (by omega)
    · refine rankCount_injOn n mask (precDesc f) (fun h1 h2 => precDesc_trans f h1 h2)
        (precDesc_irrefl f) _ ?_ ?_ ?_
      · intro i hi
        exact Finset.mem_range.mp (Finset.mem_filter.mp hi).1
      · intro i hi
        exact (topWithin_mask (Finset.mem_filter.mp hi).2).1
      · intro i hi j hj hne
        exact precDesc_connected f hne (topWithin_mask (Finset.mem_filter.mp hi).2).2.1
          (topWithin_mask (Finset.mem_filter.mp hj).2).2.1
  simpa using hcard

theorem length_filter_range (n : ℕ) (p : ℕ → Bool) :
    ((List.range n).filter p).length =
      ((Finset.range n).filter (fun i => p i = true)).card := by
  induction n with
  | zero => simp
  | succ m ih =>
    rw [List.range_succ, List.filter_append, List.length_append, Finset.range_succ,
      Finset.filter_insert]
    by_cases hp : p m = true
    · rw [if_pos hp, Finset.card_insert_of_not_mem (by simp)]
      simp [hp, ih]
    · rw [if_neg hp]
      simp [hp, ih]

/-! ### Candidate-set sizes and pipeline facts -/

theorem top_quality_split {K : ℕ} {u : List SecData} {i : ℕ}
    (h : top_quality K u i = true) :
    topWithin u.length K (univMask u) (quality u) i = true ∧ completeB u i = true := by
  unfold top_quality at h
  rcases band_split h with ⟨h, h4⟩
  rcases band_split h with ⟨h, h3⟩
  rcases band_split h with ⟨h, h2⟩
  rcases band_split h with ⟨h0, h1⟩
  exact ⟨h0, by unfold completeB; simp [h1, h2, h3, h4]⟩

theorem top_quality_lt_length {K : ℕ} {u : List SecData} {i : ℕ}
    (h : top_quality K u i = true) : i < u.length := by
  have hm := (topWithin_mask (top_quality_split h).1).1
  exact of_decide_eq_true hm

theorem top_quality_momentum_subset {K : ℕ} {u : List SecData} {i : ℕ}
    (h : top_quality_momentum K u i = true) : top_quality K u i = true :=
  (topWithin_mask h).1

theorem qualitySetSize_le (K : ℕ) (u : List SecData) : qualitySetSize K u ≤ K := by
  unfold qualitySetSize
  have hsub : (Finset.range u.length).filter (fun i => top_quality K u i = true) ⊆
      (Finset.range u.length).filter
        (fun i => topWithin u.length K (univMask u) (quality u) i = true) := by
    intro i hi
    rcases Finset.mem_filter.mp hi with ⟨hir, hit⟩
    exact Finset.mem_filter.mpr ⟨hir, (top_quality_split hit).1⟩
  exact le_trans (Finset.card_le_card hsub)
    (topWithin_card_le u.length K (univMask u) (quality u))

theorem momentumSetSize_le (K : ℕ) (u : List SecData) :
    momentumSetSize K u ≤ TARGET_SECURITIES :=
  topWithin_card_le u.length TARGET_SECURITIES (top_quality K u) (momentumF u)

theorem momentumSetSize_le_quality (K : ℕ) (u : List SecData) :
    momentumSetSize K u ≤ qualitySetSize K u := by
  apply Finset.card_le_card
  intro i hi
  rcases Finset.mem_filter.mp hi with ⟨hir, hit⟩
  exact Finset.mem_filter.mpr ⟨hir, top_quality_momentum_subset hit⟩

theorem pipeline_output_length (u : List SecData) (spy : List ℚ) :
    (pipeline_output u spy).length = momentumSetSize TOP_ROE_QTY u := by
  unfold pipeline_output momentumSetSize
  rw [List.length_map, length_filter_range]

theorem pipeline_output_nt_length (u : List SecData) :
    (pipeline_output_nt u).length = momentumSetSize TOP_ROE_QTY_NT u := by
  unfold pipeline_output_nt momentumSetSize
  rw [List.length_map, length_filter_range]

theorem mem_pipeline_output {u : List SecData} {spy : List ℚ} {r : PipeRow}
    (hr : r ∈ pipeline_output u spy) :
    r.trend_up_col = trend_up spy ∧ r.top_quality_momentum_col = true ∧
      r.sid ∈ (pipeline_output u spy).map PipeRow.sid := by
  unfold pipeline_output at hr ⊢
  rcases List.mem_map.mp hr with ⟨i, hi, rfl⟩
  rcases List.mem_filter.mp hi with ⟨-, hitq⟩
  refine ⟨rfl, hitq, ?_⟩
  exact List.mem_map.mpr ⟨_, List.mem_map.mpr ⟨i, hi, rfl⟩, rfl⟩

theorem mem_pipeline_output_nt {u : List SecData} {r : PipeRowNT}
    (hr : r ∈ pipeline_output_nt u) : r.top_quality_momentum_col = true := by
  unfold pipeline_output_nt at hr
  rcases List.mem_map.mp hr with ⟨i, hi, rfl⟩
  rcases List.mem_filter.mp hi with ⟨-, hitq⟩
  exact hitq

/-! ### Weight arithmetic -/

theorem map_pair_snd_sum (l : List Security) (w : ℚ) :
    ((l.map (fun s => (s, w))).map Prod.snd).sum = (l.length : ℚ) * w := by
  induction l with
  | nil => simp
  | cons a t ih =>
    simp only [List.map_cons, List.sum_cons, ih, List.length_cons]
    push_cast
    ring

theorem map_pair_fst (l : List Security) (w : ℚ) :
    (l.map (fun s => (s, w))).map Prod.fst = l := by
  induction l with
  | nil => rfl
  | cons a t ih => simp [ih]

theorem select_stock_weights_eq (df : List PipeRow) (holdings : List Security)
    (ctx : Context) :
    (select_stocks_and_set_weights df holdings ctx).stock_weights =
      ((df.filter (query_rule holdings)).map PipeRow.sid).map
        (fun s => (s, 1 / (TARGET_SECURITIES : ℚ))) := rfl

theorem select_bond_weights_eq (df : List PipeRow) (holdings : List Security)
    (ctx : Context) :
    (select_stocks_and_set_weights df holdings ctx).bond_weights =
      BONDS.map (fun b => (b,
        max (1 - ((select_stocks_and_set_weights df holdings ctx).stock_weights.map
          Prod.snd).sum) 0 / (BONDS.length : ℚ))) := rfl

theorem select_stock_sum (df : List PipeRow) (holdings : List Security) (ctx : Context) :
    ((select_stocks_and_set_weights df holdings ctx).stock_weights.map Prod.snd).sum =
      ((df.filter (query_rule holdings)).length : ℚ) * (1 / (TARGET_SECURITIES : ℚ)) := by
  rw [select_stock_weights_eq, map_pair_snd_sum, List.length_map]

theorem select_stock_sum_le_one {df : List PipeRow} (holdings : List Security)
    (ctx : Context) (hlen : df.length ≤ TARGET_SECURITIES) :
    ((select_stocks_and_set_weights df holdings ctx).stock_weights.map Prod.snd).sum ≤ 1 := by
  rw [select_stock_sum]
  have hk : (df.filter (query_rule holdings)).length ≤ TARGET_SECURITIES :=
    le_trans (List.length_filter_le _ _) hlen
  have hkq : ((df.filter (query_rule holdings)).length : ℚ) ≤ (TARGET_SECURITIES : ℚ) := by
    exact_mod_cast hk
  have htpos : (0 : ℚ) < (TARGET_SECURITIES : ℚ) := by norm_num [TARGET_SECURITIES]
  calc ((df.filter (query_rule holdings)).length : ℚ) * (1 / (TARGET_SECURITIES : ℚ))
      ≤ (TARGET_SECURITIES : ℚ) * (1 / (TARGET_SECURITIES : ℚ)) := by
        apply mul_le_mul_of_nonneg_right hkq
        positivity
    _ = 1 := by field_simp

theorem select_total_sum (df : List PipeRow) (holdings : List Security) (ctx : Context)
    (hlen : df.length ≤ TARGET_SECURITIES) :
    ((total_weights (select_stocks_and_set_weights df holdings ctx)).map Prod.snd).sum = 1 := by
  have hs := select_stock_sum_le_one holdings ctx hlen
  unfold total_weights
  rw [List.map_append, List.sum_append, select_bond_weights_eq, map_pair_snd_sum]
  have hb : (BONDS.length : ℚ) = 2 := by norm_num [BONDS]
  rw [hb, max_eq_left (by linarith)]
  ring

theorem select_weights_nonneg (df : List PipeRow) (holdings : List Security) (ctx : Context) :
    ∀ p ∈ total_weights (select_stocks_and_set_weights df holdings ctx), 0 ≤ p.2 := by
  intro p hp
  unfold total_weights at hp
  rcases List.mem_append.mp hp with hp | hp
  · rw [select_stock_weights_eq] at hp
    rcases List.mem_map.mp hp with ⟨s, -, rfl⟩
    norm_num [TARGET_SECURITIES]
  · rw [select_bond_weights_eq] at hp
    rcases List.mem_map.mp hp with ⟨b, -, rfl⟩
    exact div_nonneg (le_max_right _ _) (by norm_num [BONDS])

theorem select_nt_stock_weights_eq (df : List PipeRowNT) (ctx : ContextNT) :
    (select_stocks_and_set_weights_nt df ctx).stock_weights =
      ((df.filter (fun r => r.top_quality_momentum_col)).map PipeRowNT.sid).map
        (fun s => (s, 1 / (TARGET_SECURITIES : ℚ))) := rfl

theorem select_nt_sum_le_one (df : List PipeRowNT) (ctx : ContextNT)
    (hlen : df.length ≤ TARGET_SECURITIES) :
    ((select_stocks_and_set_weights_nt df ctx).stock_weights.map Prod.snd).sum ≤ 1 := by
  rw [select_nt_stock_weights_eq, map_pair_snd_sum, List.length_map]
  have hk : (df.filter (fun r => r.top_quality_momentum_col)).length ≤ TARGET_SECURITIES :=
    le_trans (List.length_filter_le _ _) hlen
  have hkq : ((df.filter (fun r => r.top_quality_momentum_col)).length : ℚ) ≤
      (TARGET_SECURITIES : ℚ) := by exact_mod_cast hk
  calc ((df.filter (fun r => r.top_quality_momentum_col)).length : ℚ) *
        (1 / (TARGET_SECURITIES : ℚ))
      ≤ (TARGET_SECURITIES : ℚ) * (1 / (TARGET_SECURITIES : ℚ)) := by
        apply mul_le_mul_of_nonneg_right hkq
        positivity
    _ = 1 := by norm_num [TARGET_SECURITIES]

theorem select_nt_weights_nonneg (df : List PipeRowNT) (ctx : ContextNT) :
    ∀ p ∈ (select_stocks_and_set_weights_nt df ctx).stock_weights, 0 ≤ p.2 := by
  intro p hp
  rw [select_nt_stock_weights_eq] at hp
  rcases List.mem_map.mp hp with ⟨s, -, rfl⟩
  norm_num [TARGET_SECURITIES]

/-- C1: for every rebalance cycle and both variants, the WeightVector
produced by SELECT (stock weights, plus bond weights in the trend
variant) has every weight nonnegative and total weight at most 1 (so at
most 1 plus any nonnegative epsilon). -/
theorem C1_weight_vector_invariant (u : List SecData) (spy : List ℚ)
    (holdings : List Security) (c : Context) (cnt : ContextNT) :
    (∀ p ∈ total_weights (select_stocks_and_set_weights (pipeline_output u spy) holdings c),
        0 ≤ p.2) ∧
    ((total_weights (select_stocks_and_set_weights (pipeline_output u spy) holdings c)).map
        Prod.snd).sum ≤ 1 ∧
    (∀ p ∈ (select_stocks_and_set_weights_nt (pipeline_output_nt u) cnt).stock_weights,
        0 ≤ p.2) ∧
    ((select_stocks_and_set_weights_nt (pipeline_output_nt u) cnt).stock_weights.map
        Prod.snd).sum ≤ 1 := by
  have hlen : (pipeline_output u spy).length ≤ TARGET_SECURITIES := by
    rw [pipeline_output_length]
    exact momentumSetSize_le _ _
  have hlennt : (pipeline_output_nt u).length ≤ TARGET_SECURITIES := by
    rw [pipeline_output_nt_length]
    exact momentumSetSize_le _ _
  exact ⟨select_weights_nonneg _ _ _, le_of_eq (select_total_sum _ _ _ hlen),
    select_nt_weights_nonneg _ _, select_nt_sum_le_one _ _ hlennt⟩

theorem query_rule_eq (holdings : List Security) {u : List SecData} {spy : List ℚ}
    {r : PipeRow} (hr : r ∈ pipeline_output u spy) :
    query_rule holdings r = (trend_up spy || holdings.contains r.sid) := by
  rcases mem_pipeline_output hr with ⟨ht, htqm, -⟩
  unfold query_rule
  rw [ht, htqm]
  cases trend_up spy <;> simp

/-- C2: in the trend-following variant a security from the Momentum
Selector output is held exactly when TrendSignal is true or it is
already in CurrentHoldings; consequently, when TrendSignal is false the
WeightVector contains no equity absent from CurrentHoldings. -/
theorem C2_trend_gate (u : List SecData) (spy : List ℚ) (holdings : List Security)
    (c : Context) (s : Security) :
    (s ∈ (select_stocks_and_set_weights (pipeline_output u spy) holdings c).stock_weights.map
        Prod.fst ↔
      s ∈ (pipeline_output u spy).map PipeRow.sid ∧ (trend_up spy = true ∨ s ∈ holdings)) ∧
    (trend_up spy = false →
      ∀ p ∈ (select_stocks_and_set_weights (pipeline_output u spy) holdings c).stock_weights,
        p.1 ∈ holdings) := by
  constructor
  · rw [select_stock_weights_eq, map_pair_fst]
    constructor
    · intro hs
      rcases List.mem_map.mp hs with ⟨r, hrf, rfl⟩
      rcases List.mem_filter.mp hrf with ⟨hrdf, hq⟩
      rw [query_rule_eq holdings hrdf] at hq
      refine ⟨(mem_pipeline_output hrdf).2.2, ?_⟩
      simp only [Bool.or_eq_true] at hq
      rcases hq with hq | hq
      · exact Or.inl hq
      · refine Or.inr ?_
        simpa using hq
    · rintro ⟨hs, hcond⟩
      rcases List.mem_map.mp hs with ⟨r, hrdf, rfl⟩
      refine List.mem_map.mpr ⟨r, List.mem_filter.mpr ⟨hrdf, ?_⟩, rfl⟩
      rw [query_rule_eq holdings hrdf]
      rcases hcond with ht | hmem
      · simp [ht]
      · simp [hmem]
  · intro htf p hp
    rw [select_stock_weights_eq] at hp
    rcases List.mem_map.mp hp with ⟨sid0, hsid, rfl⟩
    rcases List.mem_map.mp hsid with ⟨r, hrf, rfl⟩
    rcases List.mem_filter.mp hrf with ⟨hrdf, hq⟩
    rw [query_rule_eq holdings hrdf, htf] at hq
    simpa using hq

/-- C6: in the trend-following variant each included equity gets weight
exactly 1/TARGET_SECURITIES and each bond gets max(1 - equity sum, 0)
divided by the basket size, assigned every cycle; in particular when
TrendSignal is false and no current holding is in the Momentum Selector
output, the stocks get nothing and each of the two bonds gets 1/2. -/
theorem C6_defensive_allocation (u : List SecData) (spy : List ℚ)
    (holdings : List Security) (c : Context) :
    (∀ p ∈ (select_stocks_and_set_weights (pipeline_output u spy) holdings c).stock_weights,
        p.2 = 1 / (TARGET_SECURITIES : ℚ)) ∧
    ((select_stocks_and_set_weights (pipeline_output u spy) holdings c).bond_weights =
      BONDS.map (fun b => (b, max (1 -
        ((select_stocks_and_set_weights (pipeline_output u spy) holdings c).stock_weights.map
          Prod.snd).sum) 0 / (BONDS.length : ℚ)))) ∧
    (trend_up spy = false →
      (∀ s ∈ holdings, s ∉ (pipeline_output u spy).map PipeRow.sid) →
      (select_stocks_and_set_weights (pipeline_output u spy) holdings c).stock_weights = [] ∧
      ∀ p ∈ (select_stocks_and_set_weights (pipeline_output u spy) holdings c).bond_weights,
        p.2 = 1 / 2) := by
  refine ⟨?_, select_bond_weights_eq _ _ _, ?_⟩
  · intro p hp
    rw [select_stock_weights_eq] at hp
    rcases List.mem_map.mp hp with ⟨s, -, rfl⟩
    rfl
  · intro htf hdisj
    have hnil : (pipeline_output u spy).filter (query_rule holdings) = [] := by
      rw [List.filter_eq_nil_iff]
      intro r hr hq
      rw [query_rule_eq holdings hr, htf] at hq
      have hmem : r.sid ∈ holdings := by simpa using hq
      exact hdisj r.sid hmem (mem_pipeline_output hr).2.2
    have hstock :
        (select_stocks_and_set_weights (pipeline_output u spy) holdings c).stock_weights = [] := by
      rw [select_stock_weights_eq, hnil]
      rfl
    refine ⟨hstock, ?_⟩
    intro p hp
    rw [select_bond_weights_eq, hstock] at hp
    rcases List.mem_map.mp hp with ⟨b, -, rfl⟩
    norm_num [BONDS]

/-- C9: running SELECT twice on identical inputs (same pipeline output
frame and same holdings, no state change in between) produces the same
weights as running it once, in both variants. -/
theorem C9_select_idempotent (df : List PipeRow) (dfnt : List PipeRowNT)
    (holdings : List Security) (c : Context) (cnt : ContextNT) :
    select_stocks_and_set_weights df holdings
        (select_stocks_and_set_weights df holdings c) =
      select_stocks_and_set_weights df holdings c ∧
    select_stocks_and_set_weights_nt dfnt (select_stocks_and_set_weights_nt dfnt cnt) =
      select_stocks_and_set_weights_nt dfnt cnt :=
  ⟨rfl, rfl⟩

/-- C10: in the trend-following variant, when TrendSignal is true the
WeightVector does not depend on CurrentHoldings: two SELECT runs on the
same pipeline output differing only in holdings (and prior weight state)
agree on all stock and bond weights. -/
theorem C10_holdings_noninterference (u : List SecData) (spy : List ℚ)
    (h1 h2 : List Security) (c1 c2 : Context) (htrend : trend_up spy = true) :
    select_stocks_and_set_weights (pipeline_output u spy) h1 c1 =
      select_stocks_and_set_weights (pipeline_output u spy) h2 c2 := by
  have hfil : ∀ holdings : List Security,
      (pipeline_output u spy).filter (query_rule holdings) =
        (pipeline_output u spy).filter (fun r => r.top_quality_momentum_col) := by
    intro holdings
    apply List.filter_congr
    intro r hr
    rw [query_rule_eq holdings hr, htrend]
    simp [(mem_pipeline_output hr).2.1]
  have hS : (pipeline_output u spy).filter (query_rule h1) =
      (pipeline_output u spy).filter (query_rule h2) := by
    rw [hfil h1, hfil h2]
  unfold select_stocks_and_set_weights
  simp only [hS]

/-! ### Rank injectivity and the quality formula -/

theorem rankWithin_inj (n : ℕ) (mask : ℕ → Bool) (f : ℕ → Option ℚ) {i j : ℕ}
    (hi : i < n) (hj : j < n) (hmi : mask i = true) (hmj : mask j = true)
    (hfi : (f i).isSome = true) (hfj : (f j).isSome = true) (hne : i ≠ j) :
    rankWithin n mask f i ≠ rankWithin n mask f j := by
  unfold rankWithin
  rw [hmi, hfi, hmj, hfj]
  simp only [Bool.and_self, if_pos]
  intro hEq
  have hq : ((rankCount n mask (precAsc f) i : ℚ) + 1) =
      ((rankCount n mask (precAsc f) j : ℚ) + 1) := Option.some.inj hEq
  have hcount : rankCount n mask (precAsc f) i = rankCount n mask (precAsc f) j := by
    have := add_right_cancel hq
    exact_mod_cast this
  rcases precAsc_connected f hne hfi hfj with h | h
  · have hlt := rankCount_lt_of_prec n mask (precAsc f)
      (fun h1 h2 => precAsc_trans f h1 h2) (precAsc_irrefl f) hi hmi h
    omega
  · have hlt := rankCount_lt_of_prec n mask (precAsc f)
      (fun h1 h2 => precAsc_trans f h1 h2) (precAsc_irrefl f) hj hmj h
    omega

/-- C3: the composite QualityScore equals
rank(rank(cash_return) + rank(fcf_yield)) + rank(roic) + rank(revenue_growth),
each rank taken within the current snapshot; moreover ranking within the
snapshot is injective on positions with present values (consistent
tie-break), so distinct securities never share a rank. -/
theorem C3_quality_score_formula (u : List SecData) (i : ℕ) :
    quality u i = qualityScore_spec u i ∧
    (∀ g : ℕ → Option ℚ, ∀ j k : ℕ, j < u.length → k < u.length → j ≠ k →
      (g j).isSome = true → (g k).isSome = true →
      rankWithin u.length (univMask u) g j ≠ rankWithin u.length (univMask u) g k) := by
  refine ⟨rfl, ?_⟩
  intro g j k hj hk hne hgj hgk
  exact rankWithin_inj u.length (univMask u) g hj hk (decide_eq_true hj)
    (decide_eq_true hk) hgj hgk hne

/-! ### Missing data propagation -/

theorem rankWithin_none {n : ℕ} {mask : ℕ → Bool} {f : ℕ → Option ℚ} {i : ℕ}
    (h : (f i).isSome = false) : rankWithin n mask f i = none := by
  unfold rankWithin
  rw [h]
  simp

theorem oadd_none_left (b : Option ℚ) : oadd none b = none := rfl

theorem oadd_none_right (a : Option ℚ) : oadd a none = none := by
  cases a <;> rfl

theorem bool_eq_false_of_ne_true {b : Bool} (h : ¬ b = true) : b = false := by
  cases b
  · rfl
  · exact absurd rfl h

theorem quality_none_of_incomplete {u : List SecData} {i : ℕ}
    (h : completeB u i = false) : quality u i = none := by
  by_cases hc : (cash_return_latest u i).isSome = true
  · by_cases hf : (fcf_yield_latest u i).isSome = true
    · by_cases hr : (roic_latest u i).isSome = true
      · by_cases hg : (rev_growth_latest u i).isSome = true
        · exfalso
          unfold completeB at h
          rw [hc, hf, hr, hg] at h
          simp at h
        · have hgf := bool_eq_false_of_ne_true hg
          unfold quality rev_growth
          rw [rankWithin_none hgf]
          exact oadd_none_right _
      · have hrf := bool_eq_false_of_ne_true hr
        unfold quality roic
        rw [rankWithin_none hrf, oadd_none_right, oadd_none_left]
    · have hff := bool_eq_false_of_ne_true hf
      have hfr : fcf_yield u i = none := rankWithin_none hff
      have hval : value u i = none := by
        unfold value
        apply rankWithin_none
        show (oadd (cash_return u i) (fcf_yield u i)).isSome = false
        rw [hfr, oadd_none_right]
        rfl
      unfold quality
      rw [hval, oadd_none_left, oadd_none_left]
  · have hcf := bool_eq_false_of_ne_true hc
    have hcr : cash_return u i = none := rankWithin_none hcf
    have hval : value u i = none := by
      unfold value
      apply rankWithin_none
      show (oadd (cash_return u i) (fcf_yield u i)).isSome = false
      rw [hcr, oadd_none_left]
      rfl
    unfold quality
    rw [hval, oadd_none_left, oadd_none_left]

/-- C4: the quality candidate set is the top-K set by QualityScore
intersected with the securities having all four raw factors present; a
security missing any factor never passes the quality filter and has no
defined QualityScore, and the candidate set is bounded by K (it may
shrink below K without error). -/
theorem C4_completeness_filter (u : List SecData) (K i : ℕ) :
    top_quality K u i =
      (topWithin u.length K (univMask u) (quality u) i && completeB u i) ∧
    (completeB u i = false → top_quality K u i = false) ∧
    (completeB u i = false → quality u i = none) ∧
    qualitySetSize K u ≤ K := by
  have hassoc : top_quality K u i =
      (topWithin u.length K (univMask u) (quality u) i && completeB u i) := by
    unfold top_quality completeB
    simp [Bool.and_assoc]
  refine ⟨hassoc, ?_, fun h => quality_none_of_incomplete h, qualitySetSize_le K u⟩
  intro h
  rw [hassoc, h, Bool.and_false]

/-- C5: the final equity candidate list is exactly the top
TARGET_SECURITIES by descending MomentumScore taken from within the
quality output: membership is equivalent to the spec characterisation,
every selected security passed the quality gate, at most
TARGET_SECURITIES are selected, and selection is upward closed in
momentum within the quality gate (a strict two-stage filter, not a
blended score). -/
theorem C5_two_stage_selection (u : List SecData) (K i : ℕ) :
    (top_quality_momentum K u i = true ↔ momentumTop_spec u K i) ∧
    (top_quality_momentum K u i = true → top_quality K u i = true) ∧
    momentumSetSize K u ≤ TARGET_SECURITIES ∧
    (∀ j, top_quality K u j = true → (momentumF u j).isSome = true →
      precDesc (momentumF u) j i = true → top_quality_momentum K u i = true →
      top_quality_momentum K u j = true) := by
  refine ⟨?_, fun h => top_quality_momentum_subset h, momentumSetSize_le K u, ?_⟩
  · constructor
    · intro h
      rcases topWithin_mask h with ⟨hm, hs, hc⟩
      refine ⟨hm, hs, ?_⟩
      unfold rankCount at hc
      omega
    · rintro ⟨hm, hs, hc⟩
      unfold top_quality_momentum topWithin
      rw [hm, hs]
      simp only [Bool.and_self, Bool.true_and]
      apply decide_eq_true
      unfold rankCount
      omega
  · intro j htq hms hprec htop
    rcases topWithin_mask htop with ⟨-, -, hci⟩
    have hjlt : j < u.length := top_quality_lt_length htq
    have hlt := rankCount_lt_of_prec u.length (top_quality K u) (precDesc (momentumF u))
      (fun h1 h2 => precDesc_trans (momentumF u) h1 h2) (precDesc_irrefl (momentumF u))
      hjlt htq hprec
    unfold top_quality_momentum topWithin
    rw [htq, hms]
    simp only [Bool.and_self, Bool.true_and]
    exact decide_eq_true (by omega)

/-! ### The trend signal -/

theorem spy_ma_fast_eq (spy : List ℚ) : spy_ma_fast spy = spy_ma_fast_slice spy := by
  unfold spy_ma_fast sma
  simp

theorem spy_ma_slow_eq (spy : List ℚ) : spy_ma_slow spy = spy_ma_slow_slice spy := by
  unfold spy_ma_slow sma
  simp

/-- C7: TrendSignal is true exactly when the fast simple moving average
of the benchmark closes is strictly greater than the slow one over the
same price history; equality gives a false signal. -/
theorem C7_trend_signal (spy : List ℚ) :
    (trend_up spy = true ↔ sma spy TF_FAST_LOOKBACK > sma spy TF_SLOW_LOOKBACK) ∧
    (sma spy TF_FAST_LOOKBACK = sma spy TF_SLOW_LOOKBACK → trend_up spy = false) := by
  have hf : spy_ma_fast spy = sma spy TF_FAST_LOOKBACK := spy_ma_fast_eq spy
  have hs : spy_ma_slow spy = sma spy TF_SLOW_LOOKBACK := spy_ma_slow_eq spy
  constructor
  · unfold trend_up
    rw [hf, hs]
    exact decide_eq_true_iff
  · intro heq
    unfold trend_up
    rw [hf, hs, heq]
    simp

/-- C8 (amended): the Quality Ranker output has at most K securities,
the Momentum Selector output has at most TARGET_SECURITIES securities,
and the Momentum Selector output is no larger than the Quality Ranker
output; the claimed lower bound TARGET_SECURITIES ≤ quality output size
does not hold in general. -/
theorem C8_candidate_size_bounds (u : List SecData) (K : ℕ) :
    qualitySetSize K u ≤ K ∧ momentumSetSize K u ≤ TARGET_SECURITIES ∧
    momentumSetSize K u ≤ qualitySetSize K u :=
  ⟨qualitySetSize_le K u, momentumSetSize_le K u, momentumSetSize_le_quality K u⟩

/-! ### Concrete instantiations -/

set_option maxRecDepth 100000

/-- C8 as literally claimed fails on a snapshot with a single complete
security: the quality output then has size 1, below TARGET_SECURITIES. -/
theorem C8_claim_counterexample :
    ¬ (qualitySetSize TOP_ROE_QTY u0 ≤ TOP_ROE_QTY ∧
       momentumSetSize TOP_ROE_QTY u0 ≤ TARGET_SECURITIES ∧
       TARGET_SECURITIES ≤ qualitySetSize TOP_ROE_QTY u0) := by
  with_unfolding_all decide

/-- Concrete instance of C1: a bond weight of the computed WeightVector
is nonnegative. -/
theorem C1_weight_vector_invariant_witness :
    0 ≤ ((1001 : Security), (1 : ℚ)/2).2 :=
  (C1_weight_vector_invariant u0 [] [] ⟨[], []⟩ ⟨[]⟩).1 (1001, 1/2)
    (by with_unfolding_all decide)

/-- Concrete instance of C2: with the trend signal false, a security of
the Momentum Selector output already held stays in the stock weights. -/
theorem C2_trend_gate_witness :
    (7 : Security) ∈ (select_stocks_and_set_weights (pipeline_output u0 []) [7]
      ⟨[], []⟩).stock_weights.map Prod.fst :=
  (C2_trend_gate u0 [] [7] ⟨[], []⟩ 7).1.mpr
    ⟨by with_unfolding_all decide, Or.inr (by decide)⟩

/-- Concrete instance of C3: two securities with distinct cash-return
values receive distinct ranks. -/
theorem C3_quality_score_formula_witness :
    rankWithin u2.length (univMask u2) (cash_return_latest u2) 0 ≠
      rankWithin u2.length (univMask u2) (cash_return_latest u2) 1 :=
  (C3_quality_score_formula u2 0).2 (cash_return_latest u2) 0 1 (by decide) (by decide)
    (by decide) (by with_unfolding_all decide) (by with_unfolding_all decide)

/-- Concrete instance of C4: the security with a missing roic value
fails the quality filter. -/
theorem C4_completeness_filter_witness : top_quality 50 u1 1 = false :=
  (C4_completeness_filter u1 50 1).2.1 (by with_unfolding_all decide)

/-- Concrete instance of C5: the spec characterisation certifies a
member of the Momentum Selector output. -/
theorem C5_two_stage_selection_witness : top_quality_momentum 50 u2 0 = true :=
  (C5_two_stage_selection u2 50 0).1.mpr
    ⟨by with_unfolding_all decide, by with_unfolding_all decide,
      by with_unfolding_all decide⟩

/-- Concrete instance of C6: trend signal false and holdings disjoint
from the Momentum Selector output put all weight into the two bonds. -/
theorem C6_defensive_allocation_witness :
    (select_stocks_and_set_weights (pipeline_output u0 []) [99] ⟨[], []⟩).stock_weights
        = [] ∧
    ∀ p ∈ (select_stocks_and_set_weights (pipeline_output u0 []) [99]
        ⟨[], []⟩).bond_weights, p.2 = 1 / 2 :=
  (C6_defensive_allocation u0 [] [99] ⟨[], []⟩).2.2 (by with_unfolding_all decide)
    (by with_unfolding_all decide)

/-- Concrete instance of C7: equal moving averages (empty history) give
a false trend signal. -/
theorem C7_trend_signal_witness : trend_up [] = false :=
  (C7_trend_signal []).2 (by with_unfolding_all decide)

/-- Concrete instance of C10: with the trend signal true, two different
holdings lists give the same weights. -/
theorem C10_holdings_noninterference_witness :
    select_stocks_and_set_weights (pipeline_output u0 [2]) [7] ⟨[], []⟩ =
      select_stocks_and_set_weights (pipeline_output u0 [2]) [] ⟨[(3, 1/3)], []⟩ :=
  C10_holdings_noninterference u0 [2] [7] [] ⟨[], []⟩ ⟨[(3, 1/3)], []⟩
    (by with_unfolding_all decide)
